import Mathlib

/-!
Verification development for the Generation Strategy Controller described in
the repository's specification, together with the `max_utility_from_GP`
selection routine that appears verbatim in the repository's notebook source.

The controller itself (phases, ledger, generate/reportStatus/advanceIfEligible)
is not implemented inside this repository: the notebooks only configure and
call the external library's `GenerationStrategy`.  Those parts are therefore
modelled from the specification text, and each such definition is marked
`Modelled from the spec:` in its doc comment.  `max_utility_from_GP` is
embedded from the notebook source directly.
-/

namespace GenStrategy

/-- A candidate point.  The spec treats points as opaque beyond identity
(they are only compared for membership in the pending set), so we model them
as natural numbers. -/
abbrev Point := Nat

/-- Opaque observation data, passed through unmodified to the generator
capability. -/
abbrev ObservedData := Nat

/-- Modelled from the spec: trial lifecycle status, one of
{Pending, Running, Completed, Failed, Abandoned}. -/
inductive Status where
  | Pending
  | Running
  | Completed
  | Failed
  | Abandoned
deriving DecidableEq, Repr

/-- Modelled from the spec: Completed, Failed and Abandoned are terminal
statuses from the controller's perspective; Pending and Running are
non-terminal. -/
def Status.isTerminal : Status → Bool
  | .Pending => false
  | .Running => false
  | .Completed => true
  | .Failed => true
  | .Abandoned => true

/-- Modelled from the spec: for advancement counting, only Completed counts
as "observed". -/
def Status.isObserved : Status → Bool
  | .Completed => true
  | _ => false

/-- Modelled from the spec: `PhaseDescriptor` — declarative configuration of
one generation phase.  `none` for `trialQuota` or `maxConcurrent` is the
"unbounded" sentinel. -/
structure PhaseDescriptor where
  generatorId : Nat
  generatorConfig : Nat
  trialQuota : Option Nat
  minObservedBeforeAdvance : Nat
  maxConcurrent : Option Nat
  enforceQuota : Bool
deriving DecidableEq, Repr

/-- Modelled from the spec: construction-time validation of a
`PhaseDescriptor`: `trialQuota ≥ 1` and `minObservedBeforeAdvance ≤
trialQuota` when `trialQuota` is bounded, `maxConcurrent ≥ 1` when bounded. -/
def PhaseDescriptor.valid (ph : PhaseDescriptor) : Bool :=
  (match ph.trialQuota with
   | some q => 1 ≤ q && ph.minObservedBeforeAdvance ≤ q
   | none => true) &&
  (match ph.maxConcurrent with
   | some c => 1 ≤ c
   | none => true)

/-- Modelled from the spec: `TrialRecord` — a ledger entry with a unique id,
the phase that produced it, its lifecycle status and its candidate point(s). -/
structure TrialRecord where
  id : Nat
  phaseIndex : Nat
  status : Status
  points : List Point
deriving DecidableEq, Repr

/-- Modelled from the spec: `StrategyState` — the ordered phase list
(immutable after construction), the current phase index and the full trial
ledger. -/
structure StrategyState where
  phases : List PhaseDescriptor
  currentPhaseIndex : Nat
  ledger : List TrialRecord
deriving DecidableEq, Repr

/-- Modelled from the spec: the error kinds of the controller. -/
inductive StratError where
  | ConfigurationError
  | StrategyExhausted
  | MaxParallelismReached (current : Nat) (limit : Nat)
  | DataRequiredError
  | UnknownTrial
  | InvalidTransition
deriving DecidableEq, Repr

deriving instance DecidableEq for Except

/-- Modelled from the spec: construction of a controller from an ordered list
of phase descriptors; fails with `ConfigurationError` if any descriptor is
invalid. -/
def mkStrategy (phases : List PhaseDescriptor) : Except StratError StrategyState :=
  if phases.all PhaseDescriptor.valid then
    .ok { phases := phases, currentPhaseIndex := 0, ledger := [] }
  else
    .error .ConfigurationError

/-- Modelled from the spec: `countNonTerminal(phaseIndex)` — number of the
phase's trials in a non-terminal status. -/
def countNonTerminal (ledger : List TrialRecord) (phase : Nat) : Nat :=
  (ledger.filter (fun r => r.phaseIndex == phase && !r.status.isTerminal)).length

/-- Modelled from the spec: `countObservedCompleted(phaseIndex)` — number of
the phase's trials that reached Completed ("observed") status. -/
def countObservedCompleted (ledger : List TrialRecord) (phase : Nat) : Nat :=
  (ledger.filter (fun r => r.phaseIndex == phase && r.status.isObserved)).length

/-- Modelled from the spec: `countProduced(phaseIndex)` — number of trials the
phase has produced so far. -/
def countProduced (ledger : List TrialRecord) (phase : Nat) : Nat :=
  (ledger.filter (fun r => r.phaseIndex == phase)).length

/-- Modelled from the spec: the Pending-Point Filter — `pendingPoints()` is
the union of `points` over all non-terminal records, across all phases. -/
def pendingPoints (ledger : List TrialRecord) : List Point :=
  (ledger.filter (fun r => !r.status.isTerminal)).flatMap (·.points)

/-- Modelled from the spec: the valid status transitions:
Pending→Running, Pending→Completed, Pending→Failed, Running→Completed,
Running→Failed, {Pending,Running}→Abandoned; everything else is invalid. -/
def validTransition : Status → Status → Bool
  | .Pending, .Running => true
  | .Pending, .Completed => true
  | .Pending, .Failed => true
  | .Pending, .Abandoned => true
  | .Running, .Completed => true
  | .Running, .Failed => true
  | .Running, .Abandoned => true
  | _, _ => false

/-- The valid status changes exactly as the spec enumerates them:
Pending→Running, Pending→Completed, Pending→Failed, Running→Completed,
Running→Failed, Pending→Abandoned, Running→Abandoned; stated as a
proposition to compare against `validTransition`. -/
def transitionAllowed (old new : Status) : Prop :=
  (old = .Pending ∧ new = .Running) ∨
  (old = .Pending ∧ new = .Completed) ∨
  (old = .Pending ∧ new = .Failed) ∨
  (old = .Running ∧ new = .Completed) ∨
  (old = .Running ∧ new = .Failed) ∨
  (old = .Pending ∧ new = .Abandoned) ∨
  (old = .Running ∧ new = .Abandoned)

instance (old new : Status) : Decidable (transitionAllowed old new) := by
  unfold transitionAllowed
  infer_instance

/-- Modelled from the spec: `reportStatus(trialId, newStatus)` — fails with
`UnknownTrial` if the id is not in the ledger, with `InvalidTransition` on an
invalid status change, and otherwise updates the record's status. -/
def reportStatus (s : StrategyState) (trialId : Nat) (newStatus : Status) :
    Except StratError StrategyState :=
  match s.ledger.find? (fun r => r.id == trialId) with
  | none => .error .UnknownTrial
  | some r =>
    if validTransition r.status newStatus then
      .ok { s with
        ledger := s.ledger.map (fun t =>
          if t.id == trialId then { t with status := newStatus } else t) }
    else
      .error .InvalidTransition

/-- Modelled from the spec: `currentPhase()` — the descriptor at
`currentPhaseIndex`, failing with `StrategyExhausted` past the last phase. -/
def currentPhase (s : StrategyState) : Except StratError PhaseDescriptor :=
  match s.phases.get? s.currentPhaseIndex with
  | some ph => .ok ph
  | none => .error .StrategyExhausted

/-- Modelled from the spec: the eligibility condition of `advanceIfEligible`:
the current phase exists, its observed-completed count is at least
`minObservedBeforeAdvance`, and its trial quota is unbounded or met. -/
def advanceEligible (s : StrategyState) : Bool :=
  match s.phases.get? s.currentPhaseIndex with
  | none => false
  | some ph =>
    ph.minObservedBeforeAdvance ≤ countObservedCompleted s.ledger s.currentPhaseIndex &&
    (match ph.trialQuota with
     | none => true
     | some q => q ≤ countProduced s.ledger s.currentPhaseIndex)

/-- Modelled from the spec: `advanceIfEligible()` — increments
`currentPhaseIndex` and returns true when eligible, otherwise returns false
without mutating state. -/
def advanceIfEligible (s : StrategyState) : StrategyState × Bool :=
  if advanceEligible s then
    ({ s with currentPhaseIndex := s.currentPhaseIndex + 1 }, true)
  else
    (s, false)

/-- A generator capability: `(generatorId, config, observedData,
pendingPoints, n) -> candidate points`, treated as opaque and externally
supplied. -/
structure GenCap where
  run : Nat → Nat → ObservedData → List Point → Nat → List Point

/-- A generator capability that returns as many candidates as requested
(the capability contract assumed by the spec's "never returns fewer or more
than n" property). -/
def capFaithful (cap : GenCap) : Prop :=
  ∀ gid cfg obs pend k, (cap.run gid cfg obs pend k).length = k

/-- The fresh Pending records created for a batch of candidate points: one
record per point, ids assigned monotonically from `startId`, all tagged with
the producing phase. -/
def freshRecords (startId : Nat) (phase : Nat) (pts : List Point) :
    List TrialRecord :=
  pts.enum.map (fun ip =>
    { id := startId + ip.1
      phaseIndex := phase
      status := .Pending
      points := [ip.2] })

/-- Appends one new Pending TrialRecord per candidate point to the ledger,
tagged with the current phase; ids are assigned monotonically. -/
def appendTrials (s : StrategyState) (pts : List Point) : StrategyState :=
  { s with
    ledger := s.ledger ++ freshRecords s.ledger.length s.currentPhaseIndex pts }

/-- Runs the phase's generator capability for `k` candidates and records them
in the ledger under the current phase. -/
def genFromPhase (cap : GenCap) (s : StrategyState) (ph : PhaseDescriptor)
    (k : Nat) (observed : ObservedData) (pending : List Point) :
    StrategyState × List Point :=
  let pts := cap.run ph.generatorId ph.generatorConfig observed pending k
  (appendTrials s pts, pts)

/-- Modelled from the spec: the body of `generate(n, ...)`, with explicit
fuel bounding the number of phase rollovers (each rollover advances the
phase index, so `phases.length + 1` fuel always suffices).
Order of checks follows §4.2 of the spec: strategy exhaustion, then the
`maxConcurrent` admission check, then the `trialQuota` boundary with
`DataRequiredError` under `enforceQuota`, quota-boundary rollover via
`advanceIfEligible` when the observed requirement is met, and over-production
from the current phase when `enforceQuota` is false and the phase cannot
advance. -/
def generateAux (cap : GenCap) (observed : ObservedData)
    (pendingOverride : Option (List Point)) :
    Nat → StrategyState → Nat → Except StratError (StrategyState × List Point)
  | 0, _, _ => .error .StrategyExhausted
  | fuel + 1, s, n =>
    match s.phases.get? s.currentPhaseIndex with
    | none => .error .StrategyExhausted
    | some ph =>
      let pending := pendingOverride.getD (pendingPoints s.ledger)
      let nonTerm := countNonTerminal s.ledger s.currentPhaseIndex
      match (match ph.maxConcurrent with
             | some c =>
               if c < nonTerm + n then some (nonTerm, c) else none
             | none => none) with
      | some lim => .error (.MaxParallelismReached lim.1 lim.2)
      | none =>
        match ph.trialQuota with
        | none =>
          .ok (genFromPhase cap s ph n observed pending)
        | some q =>
          let produced := countProduced s.ledger s.currentPhaseIndex
          if q < produced + n then
            if ph.enforceQuota &&
                countObservedCompleted s.ledger s.currentPhaseIndex <
                  ph.minObservedBeforeAdvance then
              .error .DataRequiredError
            else
              let k := q - produced
              let res := genFromPhase cap s ph k observed pending
              let adv := advanceIfEligible res.1
              if adv.2 then
                (generateAux cap observed pendingOverride fuel adv.1
                  (n - k)).map (fun r => (r.1, res.2 ++ r.2))
              else
                let res2 := genFromPhase cap res.1 ph (n - k) observed
                  (pendingPoints res.1.ledger)
                .ok (res2.1, res.2 ++ res2.2)
          else
            .ok (genFromPhase cap s ph n observed pending)

/-- Modelled from the spec: `generate(n, observedData, nowPendingOverride?)`
— produces the next batch of candidates, enforcing admission control, quota
boundaries and phase rollover, and recording the candidates in the ledger. -/
def generate (cap : GenCap) (s : StrategyState) (n : Nat)
    (observed : ObservedData) (pendingOverride : Option (List Point) := none) :
    Except StratError (StrategyState × List Point) :=
  generateAux cap observed pendingOverride (s.phases.length + 1) s n

/-- Modelled from the spec: the serializable part of `StrategyState` — the
phase index plus the full ledger (§6: persisting phase index and ledger
contents is sufficient to reconstruct state exactly). -/
structure SerializedState where
  currentPhaseIndex : Nat
  ledger : List TrialRecord
deriving DecidableEq, Repr

/-- Modelled from the spec: serialization of a strategy state. -/
def serialize (s : StrategyState) : SerializedState :=
  { currentPhaseIndex := s.currentPhaseIndex, ledger := s.ledger }

/-- Modelled from the spec: reconstruction of a controller from the same
phase descriptors plus a serialized state. -/
def reconstruct (phases : List PhaseDescriptor) (z : SerializedState) :
    StrategyState :=
  { phases := phases, currentPhaseIndex := z.currentPhaseIndex,
    ledger := z.ledger }

/-- One public controller operation with its inputs, used to express
properties over arbitrary finite operation sequences. -/
inductive Op where
  | genOp (cap : GenCap) (n : Nat) (observed : ObservedData)
      (pendingOverride : Option (List Point))
  | reportOp (trialId : Nat) (newStatus : Status)
  | currentPhaseOp
  | advanceOp

/-- Applies one operation to a state; a failing operation leaves the state
unchanged (errors are recoverable-by-caller conditions, §7). -/
def applyOp (s : StrategyState) : Op → StrategyState
  | .genOp cap n observed ovr =>
    match generate cap s n observed ovr with
    | .ok r => r.1
    | .error _ => s
  | .reportOp tid st =>
    match reportStatus s tid st with
    | .ok s' => s'
    | .error _ => s
  | .currentPhaseOp => s
  | .advanceOp => (advanceIfEligible s).1

/-- Applies a finite sequence of operations in order. -/
def applyOps (s : StrategyState) (ops : List Op) : StrategyState :=
  ops.foldl applyOp s

/-- The relation between a pre-state and a post-state of a successful
`generate` call returning candidates `pts`: phases untouched, phase index
monotone and within bounds, and the ledger extended by one Pending record per
candidate, each tagged with a phase between the entry phase and the final
phase. -/
def GenExtends (s s' : StrategyState) (pts : List Point) : Prop :=
  s'.phases = s.phases ∧
  s.currentPhaseIndex ≤ s'.currentPhaseIndex ∧
  s'.currentPhaseIndex ≤ s.phases.length ∧
  ∃ extra, s'.ledger = s.ledger ++ extra ∧
    extra.map TrialRecord.points = pts.map (fun p => [p]) ∧
    ∀ r ∈ extra, r.status = .Pending ∧
      s.currentPhaseIndex ≤ r.phaseIndex ∧
      r.phaseIndex ≤ s'.currentPhaseIndex ∧
      r.phaseIndex < s.phases.length

end GenStrategy

namespace MaxUtility

/-- An arm of a generator run; its parameter assignment is opaque to the
selection routine, so it is modelled as a natural number. -/
structure Arm where
  parameters : Nat
deriving DecidableEq, Repr, Inhabited

/-- Observation features built inside `max_utility_from_GP`: a deep copy of
the arm's parameters with `trial_type` set to `"online"`. -/
structure ObservationFeatures where
  parameters : Nat
  trialType : String
deriving DecidableEq, Repr

/-- A generator run: a list of arms with weights. -/
structure GeneratorRun where
  arms : List Arm
  weights : List Rat
deriving DecidableEq, Repr

/-- The prediction interface used by `max_utility_from_GP`: `m.predict(obsf)`
returns `(f, cov)` where `f` maps a metric name to the list of predicted
means, one per observation feature.  Predicted means are modelled as integers
(`max_utility_from_GP` only negates and order-compares them). -/
structure Model where
  predict : List ObservationFeatures → (String → List Int) × Nat

/-- `np.argsort(u)`: the indices `0, ..., len u - 1` sorted so that the
corresponding entries of `u` are ascending (NumPy's default sort leaves the
order of ties unspecified; we use a stable sort). -/
def argsort (u : List Int) : List Nat :=
  List.insertionSort (fun i j => u.getD i 0 ≤ u.getD j 0)
    (List.range u.length)

/-- The expected utility computed inside `max_utility_from_GP`:
`u = -np.array(f["objective"])` where `f, cov = m.predict(obsf)` and `obsf`
carries each arm's parameters with `trial_type = "online"`. -/
def objectiveUtility (m : Model) (gr : GeneratorRun) : List Int :=
  ((m.predict (gr.arms.map (fun arm =>
    ({ parameters := arm.parameters, trialType := "online" } :
      ObservationFeatures)))).1 "objective").map (fun x => -x)

/-- Embedded from the notebook source (`max_utility_from_GP`): builds
observation features with `trial_type = "online"` for every arm of `gr`,
predicts, takes the utility `u = -f["objective"]`, and returns a new
`GeneratorRun` with the arms at the `n` indices of highest utility
(`np.flip(np.argsort(u))[:n]`), each with weight `1.0`.  The `experiment` and
`search_space` arguments are unused in the source body and kept opaque. -/
def max_utility_from_GP (n : Nat) (m : Model) (experiment : Nat)
    (search_space : Nat) (gr : GeneratorRun) : GeneratorRun :=
  let obsf := gr.arms.map (fun arm =>
    ({ parameters := arm.parameters, trialType := "online" } :
      ObservationFeatures))
  let fc := m.predict obsf
  let u := (fc.1 "objective").map (fun x => -x)
  let best_arm_indx := (argsort u).reverse.take n
  { arms := best_arm_indx.map (fun i => gr.arms.getD i default)
    weights := List.replicate n 1 }

end MaxUtility

namespace GenStrategy

theorem genFromPhase_eq (cap : GenCap) (s : StrategyState)
    (ph : PhaseDescriptor) (k : Nat) (obs : ObservedData)
    (pending : List Point) :
    genFromPhase cap s ph k obs pending =
      (appendTrials s (cap.run ph.generatorId ph.generatorConfig obs pending k),
       cap.run ph.generatorId ph.generatorConfig obs pending k) := rfl

theorem freshRecords_phase (sid ph : Nat) (pts : List Point) :
    ∀ r ∈ freshRecords sid ph pts, r.phaseIndex = ph := by
  intro r hr
  obtain ⟨ip, -, hf⟩ := List.mem_map.mp hr
  rw [← hf]

theorem freshRecords_pending (sid ph : Nat) (pts : List Point) :
    ∀ r ∈ freshRecords sid ph pts, r.status = .Pending := by
  intro r hr
  obtain ⟨ip, -, hf⟩ := List.mem_map.mp hr
  rw [← hf]

theorem freshRecords_map_points (sid ph : Nat) (pts : List Point) :
    (freshRecords sid ph pts).map TrialRecord.points =
      pts.map (fun p => [p]) := by
  unfold freshRecords
  rw [List.map_map]
  calc pts.enum.map (TrialRecord.points ∘ fun ip =>
        ({ id := sid + ip.1, phaseIndex := ph, status := .Pending,
           points := [ip.2] } : TrialRecord))
      = (pts.enum.map Prod.snd).map (fun p => [p]) := by
        rw [List.map_map]
        rfl
    _ = pts.map (fun p => [p]) := by rw [List.enum_map_snd]

theorem genExtends_appendTrials (s : StrategyState) (pts : List Point)
    (hlt : s.currentPhaseIndex < s.phases.length) :
    GenExtends s (appendTrials s pts) pts := by
  refine ⟨rfl, Nat.le_refl _, Nat.le_of_lt hlt,
    freshRecords s.ledger.length s.currentPhaseIndex pts, rfl,
    freshRecords_map_points _ _ _, ?_⟩
  intro r hr
  have hphase := freshRecords_phase _ _ _ r hr
  exact ⟨freshRecords_pending _ _ _ r hr, hphase ▸ Nat.le_refl _,
    hphase ▸ Nat.le_refl _, hphase ▸ hlt⟩

theorem genExtends_advance (s : StrategyState)
    (hlt : s.currentPhaseIndex < s.phases.length) :
    GenExtends s (advanceIfEligible s).1 ([] : List Point) := by
  unfold advanceIfEligible
  cases h : advanceEligible s <;> simp only [Bool.false_eq_true, if_false,
    if_true, reduceIte]
  · exact ⟨rfl, Nat.le_refl _, Nat.le_of_lt hlt, [], by simp, by simp,
      by simp⟩
  · exact ⟨rfl, Nat.le_succ _, hlt, [], by simp, by simp, by simp⟩

theorem genExtends_trans {s s1 s2 : StrategyState} {pts1 pts2 : List Point}
    (h1 : GenExtends s s1 pts1) (h2 : GenExtends s1 s2 pts2) :
    GenExtends s s2 (pts1 ++ pts2) := by
  obtain ⟨hp1, hi1, hb1, e1, hl1, hm1, hr1⟩ := h1
  obtain ⟨hp2, hi2, hb2, e2, hl2, hm2, hr2⟩ := h2
  refine ⟨hp2.trans hp1, hi1.trans hi2, by rw [← hp1]; exact hb2,
    e1 ++ e2, ?_, ?_, ?_⟩
  · rw [hl2, hl1, List.append_assoc]
  · rw [List.map_append, List.map_append, hm1, hm2]
  · intro r hr
    rcases List.mem_append.mp hr with hmem | hmem
    · obtain ⟨hst, hlo, hhi, hlen⟩ := hr1 r hmem
      exact ⟨hst, hlo, hhi.trans hi2, hlen⟩
    · obtain ⟨hst, hlo, hhi, hlen⟩ := hr2 r hmem
      exact ⟨hst, hi1.trans hlo, hhi, by rw [← hp1]; exact hlen⟩

theorem except_map_eq_ok {ε α β : Type _} {f : α → β} {x : Except ε α}
    {b : β} (h : x.map f = .ok b) : ∃ a, x = .ok a ∧ f a = b := by
  rcases x with e | a
  · simp [Except.map] at h
  · exact ⟨a, rfl, by simpa [Except.map] using h⟩

theorem generateAux_extends (cap : GenCap) (obs : ObservedData)
    (ovr : Option (List Point)) :
    ∀ (fuel : Nat) (s : StrategyState) (n : Nat) (s' : StrategyState)
      (pts : List Point),
      generateAux cap obs ovr fuel s n = .ok (s', pts) →
      GenExtends s s' pts := by
  intro fuel
  induction fuel with
  | zero =>
    intro s n s' pts h
    simp [generateAux] at h
  | succ fuel ih =>
    intro s n s' pts h
    simp only [generateAux] at h
    split at h
    · simp at h
    · rename_i ph hph
      have hlt : s.currentPhaseIndex < s.phases.length :=
        (List.get?_eq_some.mp hph).1
      split at h
      · simp at h
      · split at h
        · have h2 : genFromPhase cap s ph n obs
              (ovr.getD (pendingPoints s.ledger)) = (s', pts) := by
            injection h
          rw [genFromPhase_eq, Prod.mk.injEq] at h2
          obtain ⟨hs', hpts⟩ := h2
          subst hs'
          subst hpts
          exact genExtends_appendTrials s _ hlt
        · rename_i q hq
          split at h
          · split at h
            · simp at h
            · simp only [genFromPhase_eq] at h
              split at h
              · obtain ⟨r, hr, hfr⟩ := except_map_eq_ok h
                rw [Prod.mk.injEq] at hfr
                obtain ⟨hs', hpts⟩ := hfr
                subst hs'
                subst hpts
                have h1 := genExtends_appendTrials s
                  (cap.run ph.generatorId ph.generatorConfig obs
                    (ovr.getD (pendingPoints s.ledger))
                    (q - countProduced s.ledger s.currentPhaseIndex)) hlt
                have hadvext := genExtends_advance
                  (appendTrials s (cap.run ph.generatorId ph.generatorConfig
                    obs (ovr.getD (pendingPoints s.ledger))
                    (q - countProduced s.ledger s.currentPhaseIndex))) hlt
                have hrec := ih _ _ r.1 r.2 hr
                have := genExtends_trans h1 (genExtends_trans hadvext hrec)
                simpa using this
              · rw [Except.ok.injEq, Prod.mk.injEq] at h
                obtain ⟨hs', hpts⟩ := h
                subst hs'
                subst hpts
                have h1 := genExtends_appendTrials s
                  (cap.run ph.generatorId ph.generatorConfig obs
                    (ovr.getD (pendingPoints s.ledger))
                    (q - countProduced s.ledger s.currentPhaseIndex)) hlt
                have h2 := genExtends_appendTrials
                  (appendTrials s (cap.run ph.generatorId ph.generatorConfig
                    obs (ovr.getD (pendingPoints s.ledger))
                    (q - countProduced s.ledger s.currentPhaseIndex)))
                  (cap.run ph.generatorId ph.generatorConfig obs
                    (pendingPoints (appendTrials s (cap.run ph.generatorId
                      ph.generatorConfig obs
                      (ovr.getD (pendingPoints s.ledger))
                      (q - countProduced s.ledger
                        s.currentPhaseIndex))).ledger)
                    (n - (q - countProduced s.ledger s.currentPhaseIndex)))
                  hlt
                exact genExtends_trans h1 h2
          · have h2 : genFromPhase cap s ph n obs
                (ovr.getD (pendingPoints s.ledger)) = (s', pts) := by
              injection h
            rw [genFromPhase_eq, Prod.mk.injEq] at h2
            obtain ⟨hs', hpts⟩ := h2
            subst hs'
            subst hpts
            exact genExtends_appendTrials s _ hlt

theorem generateAux_length (cap : GenCap) (obs : ObservedData)
    (ovr : Option (List Point)) (hcap : capFaithful cap) :
    ∀ (fuel : Nat) (s : StrategyState) (n : Nat) (s' : StrategyState)
      (pts : List Point),
      generateAux cap obs ovr fuel s n = .ok (s', pts) → pts.length = n := by
  intro fuel
  induction fuel with
  | zero =>
    intro s n s' pts h
    simp [generateAux] at h
  | succ fuel ih =>
    intro s n s' pts h
    simp only [generateAux] at h
    split at h
    · simp at h
    · rename_i ph hph
      split at h
      · simp at h
      · split at h
        · have h2 : genFromPhase cap s ph n obs
              (ovr.getD (pendingPoints s.ledger)) = (s', pts) := by
            injection h
          rw [genFromPhase_eq, Prod.mk.injEq] at h2
          rw [← h2.2]
          exact hcap _ _ _ _ _
        · rename_i q hq
          split at h
          · split at h
            · simp at h
            · simp only [genFromPhase_eq] at h
              split at h
              · obtain ⟨r, hr, hfr⟩ := except_map_eq_ok h
                rw [Prod.mk.injEq] at hfr
                rw [← hfr.2, List.length_append, hcap _ _ _ _ _,
                  ih _ _ r.1 r.2 hr]
                omega
              · rw [Except.ok.injEq, Prod.mk.injEq] at h
                rw [← h.2, List.length_append, hcap _ _ _ _ _,
                  hcap _ _ _ _ _]
                omega
          · have h2 : genFromPhase cap s ph n obs
                (ovr.getD (pendingPoints s.ledger)) = (s', pts) := by
              injection h
            rw [genFromPhase_eq, Prod.mk.injEq] at h2
            rw [← h2.2]
            exact hcap _ _ _ _ _

theorem reportStatus_ok_state (s : StrategyState) (tid : Nat) (st : Status)
    (s' : StrategyState) (h : reportStatus s tid st = .ok s') :
    s'.ledger = s.ledger.map (fun t =>
      if t.id == tid then { t with status := st } else t) ∧
    s'.phases = s.phases ∧ s'.currentPhaseIndex = s.currentPhaseIndex := by
  unfold reportStatus at h
  rcases hf : s.ledger.find? (fun r => r.id == tid) with _ | r <;> rw [hf] at h <;>
    dsimp only at h
  · exact absurd h (by simp)
  · cases hv : validTransition r.status st <;> rw [hv] at h
    · simp at h
    · rw [if_pos rfl] at h
      cases h
      exact ⟨rfl, rfl, rfl⟩

theorem advanceEligible_lt (s : StrategyState)
    (h : advanceEligible s = true) :
    s.currentPhaseIndex < s.phases.length := by
  unfold advanceEligible at h
  rcases hph : s.phases.get? s.currentPhaseIndex with _ | ph
  · simp only [hph] at h
    exact absurd h (by simp)
  · exact (List.get?_eq_some.mp hph).1

theorem applyOp_phases (s : StrategyState) (op : Op) :
    (applyOp s op).phases = s.phases := by
  cases op with
  | genOp cap n obs ovr =>
    simp only [applyOp]
    rcases hg : generate cap s n obs ovr with e | r
    · rfl
    · exact (generateAux_extends cap obs ovr _ s n r.1 r.2 hg).1
  | reportOp tid st =>
    simp only [applyOp]
    rcases hr : reportStatus s tid st with e | s2
    · rfl
    · exact (reportStatus_ok_state s tid st s2 hr).2.1
  | currentPhaseOp => rfl
  | advanceOp =>
    simp only [applyOp]
    unfold advanceIfEligible
    cases h : advanceEligible s <;> simp

theorem applyOp_index_mono (s : StrategyState) (op : Op) :
    s.currentPhaseIndex ≤ (applyOp s op).currentPhaseIndex := by
  cases op with
  | genOp cap n obs ovr =>
    simp only [applyOp]
    rcases hg : generate cap s n obs ovr with e | r
    · exact Nat.le_refl _
    · exact (generateAux_extends cap obs ovr _ s n r.1 r.2 hg).2.1
  | reportOp tid st =>
    simp only [applyOp]
    rcases hr : reportStatus s tid st with e | s2
    · exact Nat.le_refl _
    · exact ((reportStatus_ok_state s tid st s2 hr).2.2).ge
  | currentPhaseOp => exact Nat.le_refl _
  | advanceOp =>
    simp only [applyOp]
    unfold advanceIfEligible
    cases h : advanceEligible s <;> simp [Nat.le_succ]

theorem applyOp_index_bound (s : StrategyState) (op : Op)
    (h : s.currentPhaseIndex ≤ s.phases.length) :
    (applyOp s op).currentPhaseIndex ≤ s.phases.length := by
  cases op with
  | genOp cap n obs ovr =>
    simp only [applyOp]
    rcases hg : generate cap s n obs ovr with e | r
    · exact h
    · exact (generateAux_extends cap obs ovr _ s n r.1 r.2 hg).2.2.1
  | reportOp tid st =>
    simp only [applyOp]
    rcases hr : reportStatus s tid st with e | s2
    · exact h
    · rw [(reportStatus_ok_state s tid st s2 hr).2.2]
      exact h
  | currentPhaseOp => exact h
  | advanceOp =>
    simp only [applyOp]
    unfold advanceIfEligible
    cases hadv : advanceEligible s
    · simpa using h
    · have := advanceEligible_lt s hadv
      simpa using this

theorem applyOps_phases : ∀ (ops : List Op) (s : StrategyState),
    (applyOps s ops).phases = s.phases := by
  intro ops
  induction ops with
  | nil => intro s; rfl
  | cons op rest ih =>
    intro s
    have hstep : applyOps s (op :: rest) = applyOps (applyOp s op) rest := rfl
    rw [hstep, ih, applyOp_phases]

theorem applyOps_index_bound : ∀ (ops : List Op) (s : StrategyState),
    s.currentPhaseIndex ≤ s.phases.length →
    (applyOps s ops).currentPhaseIndex ≤ s.phases.length := by
  intro ops
  induction ops with
  | nil => intro s h; exact h
  | cons op rest ih =>
    intro s h
    have hstep : applyOps s (op :: rest) = applyOps (applyOp s op) rest := rfl
    rw [hstep]
    have hbound := applyOp_index_bound s op h
    have := ih (applyOp s op) (by rw [applyOp_phases]; exact hbound)
    rw [applyOp_phases] at this
    exact this

theorem mkStrategy_ok (phases : List PhaseDescriptor) (s0 : StrategyState)
    (h : mkStrategy phases = .ok s0) :
    s0 = { phases := phases, currentPhaseIndex := 0, ledger := [] } := by
  unfold mkStrategy at h
  split at h
  · cases h
    rfl
  · simp at h

/-- Claim C6: starting from a strategy constructed from a valid phase list,
over any finite sequence of generate / reportStatus / currentPhase /
advanceIfEligible operations (succeeding or failing), `currentPhaseIndex`
never decreases at any step, never exceeds `len(phases)`, and the phase list
itself never changes. -/
theorem claim_C6_phase_monotone :
    ∀ (phases : List PhaseDescriptor) (s0 : StrategyState),
      mkStrategy phases = .ok s0 →
      (∀ (ops : List Op) (op : Op),
        (applyOps s0 ops).currentPhaseIndex ≤
          (applyOps s0 (ops ++ [op])).currentPhaseIndex) ∧
      (∀ ops : List Op,
        (applyOps s0 ops).currentPhaseIndex ≤ phases.length) ∧
      (∀ ops : List Op, (applyOps s0 ops).phases = phases) := by
  intro phases s0 h0
  have hs0 := mkStrategy_ok phases s0 h0
  subst hs0
  refine ⟨?_, ?_, ?_⟩
  · intro ops op
    have hsplit : ∀ t : StrategyState,
        applyOps t (ops ++ [op]) = applyOp (applyOps t ops) op := by
      intro t
      unfold applyOps
      rw [List.foldl_append]
      rfl
    rw [hsplit]
    exact applyOp_index_mono _ op
  · intro ops
    exact applyOps_index_bound ops _ (Nat.zero_le _)
  · intro ops
    exact applyOps_phases ops _

/-- Claim C7: whenever `generate(n, ...)` returns without an error, given a
generator capability that returns as many candidates as requested, the result
has exactly `n` candidate points and the ledger gains exactly one new Pending
TrialRecord per returned candidate (holding exactly that candidate's point),
each tagged with the phase that produced it (a phase between the entry phase
and the final phase of the call, within the phase list). -/
theorem claim_C7_generate_exact_n :
    ∀ (cap : GenCap) (s : StrategyState) (n : Nat) (obs : ObservedData)
      (ovr : Option (List Point)) (s' : StrategyState) (pts : List Point),
      capFaithful cap →
      generate cap s n obs ovr = .ok (s', pts) →
      pts.length = n ∧
      ∃ extra, s'.ledger = s.ledger ++ extra ∧
        extra.length = n ∧
        extra.map TrialRecord.points = pts.map (fun p => [p]) ∧
        ∀ r ∈ extra, r.status = .Pending ∧
          s.currentPhaseIndex ≤ r.phaseIndex ∧
          r.phaseIndex ≤ s'.currentPhaseIndex ∧
          r.phaseIndex < s.phases.length := by
  intro cap s n obs ovr s' pts hcap h
  have hlen := generateAux_length cap obs ovr hcap _ s n s' pts h
  obtain ⟨-, -, -, extra, hext, hmap, hrec⟩ :=
    generateAux_extends cap obs ovr _ s n s' pts h
  have hexlen : extra.length = n := by
    have hc := congrArg List.length hmap
    simpa [hlen] using hc
  exact ⟨hlen, extra, hext, hexlen, hmap, hrec⟩

theorem freshRecords_length (sid ph : Nat) (pts : List Point) :
    (freshRecords sid ph pts).length = pts.length := by
  simp [freshRecords]

theorem countProduced_append (l1 l2 : List TrialRecord) (p : Nat) :
    countProduced (l1 ++ l2) p = countProduced l1 p + countProduced l2 p := by
  simp [countProduced, List.filter_append]

theorem countObservedCompleted_append (l1 l2 : List TrialRecord) (p : Nat) :
    countObservedCompleted (l1 ++ l2) p =
      countObservedCompleted l1 p + countObservedCompleted l2 p := by
  simp [countObservedCompleted, List.filter_append]

theorem countNonTerminal_append (l1 l2 : List TrialRecord) (p : Nat) :
    countNonTerminal (l1 ++ l2) p =
      countNonTerminal l1 p + countNonTerminal l2 p := by
  simp [countNonTerminal, List.filter_append]

theorem countProduced_freshRecords (sid ph p : Nat) (pts : List Point) :
    countProduced (freshRecords sid ph pts) p =
      if p = ph then pts.length else 0 := by
  unfold countProduced
  by_cases hp : p = ph
  · subst hp
    rw [List.filter_eq_self.mpr, freshRecords_length]
    · rw [if_pos rfl]
    · intro r hr
      simp [freshRecords_phase sid p pts r hr]
  · rw [List.filter_eq_nil_iff.mpr, if_neg hp]
    · rfl
    · intro r hr
      simp [freshRecords_phase sid ph pts r hr]
      exact fun hcontra => hp hcontra.symm

theorem countObservedCompleted_freshRecords (sid ph p : Nat)
    (pts : List Point) :
    countObservedCompleted (freshRecords sid ph pts) p = 0 := by
  unfold countObservedCompleted
  rw [List.filter_eq_nil_iff.mpr]
  · rfl
  · intro r hr
    simp [freshRecords_pending sid ph pts r hr, Status.isObserved]

theorem countNonTerminal_freshRecords (sid ph p : Nat) (pts : List Point) :
    countNonTerminal (freshRecords sid ph pts) p =
      if p = ph then pts.length else 0 := by
  unfold countNonTerminal
  by_cases hp : p = ph
  · subst hp
    rw [List.filter_eq_self.mpr, freshRecords_length]
    · rw [if_pos rfl]
    · intro r hr
      simp [freshRecords_phase sid p pts r hr,
        freshRecords_pending sid p pts r hr, Status.isTerminal]
  · rw [List.filter_eq_nil_iff.mpr, if_neg hp]
    · rfl
    · intro r hr
      simp [freshRecords_phase sid ph pts r hr]
      exact fun hcontra => absurd hcontra.symm hp

theorem appendTrials_ledger (s : StrategyState) (pts : List Point) :
    (appendTrials s pts).ledger =
      s.ledger ++ freshRecords s.ledger.length s.currentPhaseIndex pts := rfl

theorem appendTrials_currentPhaseIndex (s : StrategyState) (pts : List Point) :
    (appendTrials s pts).currentPhaseIndex = s.currentPhaseIndex := rfl

theorem appendTrials_phases (s : StrategyState) (pts : List Point) :
    (appendTrials s pts).phases = s.phases := rfl

theorem appendTrials_nil_ledger (s : StrategyState) :
    (appendTrials s ([] : List Point)).ledger = s.ledger := by
  rw [appendTrials_ledger]
  simp [freshRecords]

theorem generateAux_succ_simple (cap : GenCap) (obs : ObservedData)
    (ovr : Option (List Point)) (fuel : Nat) (s : StrategyState) (n : Nat)
    (ph : PhaseDescriptor)
    (hph : s.phases.get? s.currentPhaseIndex = some ph)
    (hadm : ∀ c, ph.maxConcurrent = some c →
      countNonTerminal s.ledger s.currentPhaseIndex + n ≤ c)
    (hquota : ∀ q, ph.trialQuota = some q →
      countProduced s.ledger s.currentPhaseIndex + n ≤ q) :
    generateAux cap obs ovr (fuel + 1) s n =
      .ok (genFromPhase cap s ph n obs (ovr.getD (pendingPoints s.ledger))) := by
  simp only [generateAux, hph]
  rcases hmc : ph.maxConcurrent with _ | c
  · dsimp only
    rcases hq : ph.trialQuota with _ | q
    · rfl
    · have hle := hquota q hq
      dsimp only
      rw [if_neg (by omega)]
  · have hle := hadm c hmc
    dsimp only
    rw [if_neg (by omega)]
    dsimp only
    rcases hq : ph.trialQuota with _ | q
    · rfl
    · have hle2 := hquota q hq
      dsimp only
      rw [if_neg (by omega)]

theorem advanceEligible_iff_counts (s : StrategyState) (ph : PhaseDescriptor)
    (hph : s.phases.get? s.currentPhaseIndex = some ph) :
    advanceEligible s = true ↔
      (ph.minObservedBeforeAdvance ≤
        countObservedCompleted s.ledger s.currentPhaseIndex ∧
       ∀ q, ph.trialQuota = some q →
        q ≤ countProduced s.ledger s.currentPhaseIndex) := by
  unfold advanceEligible
  simp only [hph, Bool.and_eq_true, decide_eq_true_eq]
  rcases hq : ph.trialQuota with _ | q <;> simp [hq]

theorem advanceIfEligible_of_eligible (s : StrategyState)
    (h : advanceEligible s = true) :
    advanceIfEligible s =
      ({ s with currentPhaseIndex := s.currentPhaseIndex + 1 }, true) := by
  unfold advanceIfEligible
  rw [h]
  rfl

theorem generateAux_succ_rollover (cap : GenCap) (obs : ObservedData)
    (ovr : Option (List Point)) (fuel : Nat) (s : StrategyState) (n : Nat)
    (ph : PhaseDescriptor) (q : Nat) (hcap : capFaithful cap)
    (hph : s.phases.get? s.currentPhaseIndex = some ph)
    (hq : ph.trialQuota = some q)
    (hadm : ∀ c, ph.maxConcurrent = some c →
      countNonTerminal s.ledger s.currentPhaseIndex + n ≤ c)
    (hover : q < countProduced s.ledger s.currentPhaseIndex + n)
    (hobs : ph.minObservedBeforeAdvance ≤
      countObservedCompleted s.ledger s.currentPhaseIndex) :
    ∃ s1 : StrategyState,
      s1.phases = s.phases ∧
      s1.currentPhaseIndex = s.currentPhaseIndex + 1 ∧
      s1.ledger = s.ledger ++ freshRecords s.ledger.length s.currentPhaseIndex
        (cap.run ph.generatorId ph.generatorConfig obs
          (ovr.getD (pendingPoints s.ledger))
          (q - countProduced s.ledger s.currentPhaseIndex)) ∧
      generateAux cap obs ovr (fuel + 1) s n =
        (generateAux cap obs ovr fuel s1
          (n - (q - countProduced s.ledger s.currentPhaseIndex))).map
          (fun r => (r.1,
            cap.run ph.generatorId ph.generatorConfig obs
              (ovr.getD (pendingPoints s.ledger))
              (q - countProduced s.ledger s.currentPhaseIndex) ++ r.2)) := by
  have hX := hcap ph.generatorId ph.generatorConfig obs
    (ovr.getD (pendingPoints s.ledger))
    (q - countProduced s.ledger s.currentPhaseIndex)
  have hadvel : advanceEligible (appendTrials s
      (cap.run ph.generatorId ph.generatorConfig obs
        (ovr.getD (pendingPoints s.ledger))
        (q - countProduced s.ledger s.currentPhaseIndex))) = true := by
    rw [advanceEligible_iff_counts (appendTrials s
      (cap.run ph.generatorId ph.generatorConfig obs
        (ovr.getD (pendingPoints s.ledger))
        (q - countProduced s.ledger s.currentPhaseIndex))) ph hph]
    simp only [appendTrials_currentPhaseIndex, appendTrials_ledger]
    constructor
    · rw [countObservedCompleted_append,
        countObservedCompleted_freshRecords]
      simpa using hobs
    · intro q2 hq2
      rw [hq] at hq2
      cases hq2
      rw [countProduced_append,
        countProduced_freshRecords, if_pos rfl, hX]
      omega
  refine ⟨{ appendTrials s (cap.run ph.generatorId ph.generatorConfig obs
      (ovr.getD (pendingPoints s.ledger))
      (q - countProduced s.ledger s.currentPhaseIndex)) with
    currentPhaseIndex := (appendTrials s (cap.run ph.generatorId
      ph.generatorConfig obs (ovr.getD (pendingPoints s.ledger))
      (q - countProduced s.ledger s.currentPhaseIndex))).currentPhaseIndex
      + 1 }, rfl, rfl, rfl, ?_⟩
  have hdec : decide (countObservedCompleted s.ledger s.currentPhaseIndex <
      ph.minObservedBeforeAdvance) = false := by
    rw [decide_eq_false_iff_not]
    omega
  simp only [generateAux, hph]
  rcases hmc : ph.maxConcurrent with _ | c
  · dsimp only
    simp only [hq]
    rw [if_pos hover]
    rw [hdec, Bool.and_false, if_neg (by simp)]
    simp only [genFromPhase_eq]
    rw [advanceIfEligible_of_eligible _ hadvel]
    dsimp only
    rw [if_pos rfl]
  · have hle := hadm c hmc
    dsimp only
    rw [if_neg (by omega)]
    dsimp only
    simp only [hq]
    rw [if_pos hover]
    rw [hdec, Bool.and_false, if_neg (by simp)]
    simp only [genFromPhase_eq]
    rw [advanceIfEligible_of_eligible _ hadvel]
    dsimp only
    rw [if_pos rfl]

theorem isTerminal_eq_false_iff (st : Status) :
    st.isTerminal = false ↔ (st = .Pending ∨ st = .Running) := by
  cases st <;> simp [Status.isTerminal]

theorem validTransition_iff (old new : Status) :
    validTransition old new = true ↔ transitionAllowed old new := by
  cases old <;> cases new <;> decide

/-- Claim C3: `advanceIfEligible()` increments `currentPhaseIndex` by one and
returns true exactly when the current phase exists (`currentPhaseIndex <
len(phases)`), its observed-completed count is at least
`minObservedBeforeAdvance`, and its trial quota is unbounded or met; in every
other case it returns false and leaves the state unchanged. -/
theorem claim_C3_advanceIfEligible : ∀ s : StrategyState,
    ((advanceIfEligible s).2 = true ↔
      ∃ ph, s.phases.get? s.currentPhaseIndex = some ph ∧
        s.currentPhaseIndex < s.phases.length ∧
        ph.minObservedBeforeAdvance ≤
          countObservedCompleted s.ledger s.currentPhaseIndex ∧
        (ph.trialQuota = none ∨ ∃ q, ph.trialQuota = some q ∧
          q ≤ countProduced s.ledger s.currentPhaseIndex)) ∧
    ((advanceIfEligible s).2 = true →
      (advanceIfEligible s).1 =
        { s with currentPhaseIndex := s.currentPhaseIndex + 1 }) ∧
    ((advanceIfEligible s).2 = false → (advanceIfEligible s).1 = s) := by
  intro s
  have hiff : advanceEligible s = true ↔
      ∃ ph, s.phases.get? s.currentPhaseIndex = some ph ∧
        s.currentPhaseIndex < s.phases.length ∧
        ph.minObservedBeforeAdvance ≤
          countObservedCompleted s.ledger s.currentPhaseIndex ∧
        (ph.trialQuota = none ∨ ∃ q, ph.trialQuota = some q ∧
          q ≤ countProduced s.ledger s.currentPhaseIndex) := by
    unfold advanceEligible
    rcases hph : s.phases.get? s.currentPhaseIndex with _ | ph
    · simp
    · have hlt : s.currentPhaseIndex < s.phases.length :=
        List.get?_eq_some.mp hph |>.1
      cases hq : ph.trialQuota <;>
        simp [hq, hlt, Bool.and_eq_true, decide_eq_true_eq]
  have hsnd : (advanceIfEligible s).2 = advanceEligible s := by
    unfold advanceIfEligible
    cases h : advanceEligible s <;> simp [h]
  refine ⟨?_, ?_, ?_⟩
  · rw [hsnd]
    exact hiff
  · intro ht
    rw [hsnd] at ht
    unfold advanceIfEligible
    rw [ht]
    rfl
  · intro ht
    rw [hsnd] at ht
    unfold advanceIfEligible
    rw [ht]
    rfl

/-- Claim C8: `reportStatus(trialId, newStatus)` fails with `UnknownTrial`
exactly when the id is not in the ledger, succeeds exactly when the found
record's status change is one of the seven allowed transitions, fails with
`InvalidTransition` for every other change, and on any failure the state is
unchanged. -/
theorem claim_C8_reportStatus : ∀ (s : StrategyState) (tid : Nat) (st : Status),
    (reportStatus s tid st = .error .UnknownTrial ↔ ∀ r ∈ s.ledger, r.id ≠ tid) ∧
    ((∃ s', reportStatus s tid st = .ok s') ↔
      ∃ r, s.ledger.find? (fun t => t.id == tid) = some r ∧
        transitionAllowed r.status st) ∧
    (∀ r, s.ledger.find? (fun t => t.id == tid) = some r →
      ¬ transitionAllowed r.status st →
      reportStatus s tid st = .error .InvalidTransition) ∧
    (∀ e, reportStatus s tid st = .error e → applyOp s (.reportOp tid st) = s) := by
  intro s tid st
  refine ⟨?_, ?_, ?_, ?_⟩
  · unfold reportStatus
    rcases hf : s.ledger.find? (fun r => r.id == tid) with _ | r <;>
      simp only [hf]
    · simp only [true_iff]
      have hn := List.find?_eq_none.mp hf
      intro r hr
      simpa using hn r hr
    · have hmem := List.mem_of_find?_eq_some hf
      have hid := List.find?_some hf
      have hideq : r.id = tid := by simpa using hid
      constructor
      · intro hcontra
        exfalso
        cases hv : validTransition r.status st <;> rw [hv] at hcontra <;>
          simp at hcontra
      · intro hall
        exact absurd hideq (hall r hmem)
  · unfold reportStatus
    rcases hf : s.ledger.find? (fun r => r.id == tid) with _ | r <;>
      simp only [hf]
    · simp
    · cases hv : validTransition r.status st
      · rw [if_neg (by simp)]
        constructor
        · intro hcontra
          obtain ⟨s', hs'⟩ := hcontra
          simp at hs'
        · rintro ⟨r2, hr2, hall⟩
          rw [Option.some_inj] at hr2
          subst hr2
          exact absurd ((validTransition_iff _ _).mpr hall) (by simp [hv])
      · rw [if_pos rfl]
        constructor
        · intro _
          exact ⟨r, rfl, (validTransition_iff _ _).mp hv⟩
        · intro _
          exact ⟨_, rfl⟩
  · intro r hf hna
    unfold reportStatus
    simp only [hf]
    have hv : validTransition r.status st = false := by
      cases h : validTransition r.status st
      · rfl
      · exact absurd ((validTransition_iff _ _).mp h) hna
    rw [hv, if_neg (by simp)]
  · intro e he
    simp [applyOp, he]

/-- Claim C9: serializing a strategy state (phase index plus full ledger) and
reconstructing a controller from it with the same phase descriptors yields a
state on which every operation returns the same results and successor states
as on the original: controller behavior is a pure function of the phase
descriptors plus that state. -/
theorem claim_C9_roundtrip : ∀ s : StrategyState,
    reconstruct s.phases (serialize s) = s ∧
    (∀ cap n obs ovr,
      generate cap (reconstruct s.phases (serialize s)) n obs ovr =
        generate cap s n obs ovr) ∧
    (∀ tid st, reportStatus (reconstruct s.phases (serialize s)) tid st =
      reportStatus s tid st) ∧
    currentPhase (reconstruct s.phases (serialize s)) = currentPhase s ∧
    advanceIfEligible (reconstruct s.phases (serialize s)) = advanceIfEligible s ∧
    (∀ ops, applyOps (reconstruct s.phases (serialize s)) ops = applyOps s ops) := by
  intro s
  have h : reconstruct s.phases (serialize s) = s := rfl
  rw [h]
  exact ⟨rfl, fun _ _ _ _ => rfl, fun _ _ => rfl, rfl, rfl, fun _ => rfl⟩

/-- Claim C1: `pendingPoints()` equals the union of `points` over exactly the
records whose status is Pending or Running; reporting a trial Completed or
Abandoned removes its points from the pending set (no other non-terminal
trial holding the same point). -/
theorem claim_C1_pendingPoints :
    (∀ (ledger : List TrialRecord) (p : Point),
      p ∈ pendingPoints ledger ↔
        ∃ r ∈ ledger, (r.status = .Pending ∨ r.status = .Running) ∧
          p ∈ r.points) ∧
    (∀ (s s' : StrategyState) (tid : Nat) (st : Status) (p : Point),
      reportStatus s tid st = .ok s' →
      (st = .Completed ∨ st = .Abandoned) →
      (∀ r ∈ s.ledger, r.id ≠ tid → r.status.isTerminal = false →
        p ∉ r.points) →
      p ∉ pendingPoints s'.ledger) := by
  have hmain : ∀ (ledger : List TrialRecord) (p : Point),
      p ∈ pendingPoints ledger ↔
        ∃ r ∈ ledger, (r.status = .Pending ∨ r.status = .Running) ∧
          p ∈ r.points := by
    intro ledger p
    unfold pendingPoints
    simp only [List.mem_flatMap, List.mem_filter, Bool.not_eq_true',
      isTerminal_eq_false_iff]
    constructor
    · rintro ⟨r, ⟨hr, hst⟩, hp⟩
      exact ⟨r, hr, hst, hp⟩
    · rintro ⟨r, hr, hst, hp⟩
      exact ⟨r, ⟨hr, hst⟩, hp⟩
  refine ⟨hmain, ?_⟩
  intro s s' tid st p hok hterm hothers hmem
  obtain ⟨hled, -, -⟩ := reportStatus_ok_state s tid st s' hok
  rw [hmain] at hmem
  obtain ⟨r', hr', hst', hp'⟩ := hmem
  rw [hled] at hr'
  obtain ⟨r, hr, hf⟩ := List.mem_map.mp hr'
  by_cases hid : (r.id == tid) = true
  · rw [if_pos hid] at hf
    have : st = .Pending ∨ st = .Running := by
      rw [← hf] at hst'
      exact hst'
    rcases hterm with h | h <;> rcases this with h2 | h2 <;>
      simp [h] at h2
  · rw [if_neg hid] at hf
    subst hf
    have hidne : r.id ≠ tid := by simpa using hid
    have hnt : r.status.isTerminal = false :=
      (isTerminal_eq_false_iff r.status).mpr hst'
    exact hothers r hr hidne hnt hp'

/-- Claim C4: when the current phase's `maxConcurrent` is bounded by `c` and
the phase's non-terminal trial count plus `n` exceeds `c`, `generate(n, ...)`
fails with `MaxParallelismReached` carrying the current non-terminal count
and the limit, and the state is unchanged (no records appended, phase index
unchanged); in particular this covers `generate(1, ...)` with `c`
non-terminal trials already in the phase. -/
theorem claim_C4_max_parallelism :
    ∀ (cap : GenCap) (s : StrategyState) (ph : PhaseDescriptor) (c n : Nat)
      (obs : ObservedData) (ovr : Option (List Point)),
      s.phases.get? s.currentPhaseIndex = some ph →
      ph.maxConcurrent = some c →
      1 ≤ n →
      c < countNonTerminal s.ledger s.currentPhaseIndex + n →
      generate cap s n obs ovr =
        .error (.MaxParallelismReached
          (countNonTerminal s.ledger s.currentPhaseIndex) c) ∧
      applyOp s (.genOp cap n obs ovr) = s := by
  intro cap s ph c n obs ovr hph hmc hn hover
  have hgen : generate cap s n obs ovr = .error (.MaxParallelismReached
      (countNonTerminal s.ledger s.currentPhaseIndex) c) := by
    unfold generate
    simp only [generateAux, hph, hmc]
    rw [if_pos hover]
  exact ⟨hgen, by simp [applyOp, hgen]⟩

/-- Claim C5: with `enforceQuota = true`, a bounded quota already filled and
the observed-completed minimum unmet, `generate(n, ...)` fails with
`DataRequiredError` and the state is unchanged; once the observed minimum is
met, a subsequent `generate(1, ...)` succeeds and its single new trial is
attributed to the next phase. -/
theorem claim_C5_data_required :
    (∀ (cap : GenCap) (s : StrategyState) (ph : PhaseDescriptor) (q n : Nat)
      (obs : ObservedData) (ovr : Option (List Point)),
      s.phases.get? s.currentPhaseIndex = some ph →
      ph.trialQuota = some q →
      ph.enforceQuota = true →
      q ≤ countProduced s.ledger s.currentPhaseIndex →
      1 ≤ n →
      countObservedCompleted s.ledger s.currentPhaseIndex <
        ph.minObservedBeforeAdvance →
      (∀ c, ph.maxConcurrent = some c →
        countNonTerminal s.ledger s.currentPhaseIndex + n ≤ c) →
      generate cap s n obs ovr = .error .DataRequiredError ∧
      applyOp s (.genOp cap n obs ovr) = s) ∧
    (∀ (cap : GenCap) (s : StrategyState) (ph ph2 : PhaseDescriptor) (q : Nat)
      (obs : ObservedData) (ovr : Option (List Point)),
      capFaithful cap →
      s.phases.get? s.currentPhaseIndex = some ph →
      ph.trialQuota = some q →
      q ≤ countProduced s.ledger s.currentPhaseIndex →
      ph.minObservedBeforeAdvance ≤
        countObservedCompleted s.ledger s.currentPhaseIndex →
      (∀ c, ph.maxConcurrent = some c →
        countNonTerminal s.ledger s.currentPhaseIndex + 1 ≤ c) →
      s.phases.get? (s.currentPhaseIndex + 1) = some ph2 →
      (∀ c, ph2.maxConcurrent = some c →
        countNonTerminal s.ledger (s.currentPhaseIndex + 1) + 1 ≤ c) →
      (∀ q2, ph2.trialQuota = some q2 →
        countProduced s.ledger (s.currentPhaseIndex + 1) + 1 ≤ q2) →
      ∃ (s' : StrategyState) (p : Point) (rec : TrialRecord),
        generate cap s 1 obs ovr = .ok (s', [p]) ∧
        s'.ledger = s.ledger ++ [rec] ∧
        rec.phaseIndex = s.currentPhaseIndex + 1 ∧
        rec.status = .Pending ∧
        rec.points = [p] ∧
        s'.currentPhaseIndex = s.currentPhaseIndex + 1) := by
  constructor
  · intro cap s ph q n obs ovr hph hq henf hprod hn hobs hadm
    have hgen : generate cap s n obs ovr = .error .DataRequiredError := by
      unfold generate
      simp only [generateAux, hph]
      rcases hmc : ph.maxConcurrent with _ | c
      · dsimp only
        simp only [hq]
        rw [if_pos (by omega)]
        rw [if_pos (by simp [henf, hobs])]
      · have hle := hadm c hmc
        dsimp only
        rw [if_neg (by omega)]
        dsimp only
        simp only [hq]
        rw [if_pos (by omega)]
        rw [if_pos (by simp [henf, hobs])]
    exact ⟨hgen, by simp [applyOp, hgen]⟩
  · intro cap s ph ph2 q obs ovr hcap hph hq hprod hobs hadm hph2 hadm2 hq2
    have hlt2 : s.currentPhaseIndex + 1 < s.phases.length :=
      (List.get?_eq_some.mp hph2).1
    obtain ⟨s1, hs1p, hs1i, hs1l, hstep⟩ :=
      generateAux_succ_rollover cap obs ovr s.phases.length s 1 ph q hcap
        hph hq hadm (by omega) hobs
    have hk : q - countProduced s.ledger s.currentPhaseIndex = 0 := by omega
    rw [hk] at hs1l hstep
    have hX0 : cap.run ph.generatorId ph.generatorConfig obs
        (ovr.getD (pendingPoints s.ledger)) 0 = [] := by
      have := hcap ph.generatorId ph.generatorConfig obs
        (ovr.getD (pendingPoints s.ledger)) 0
      exact List.length_eq_zero.mp this
    rw [hX0] at hs1l hstep
    have hs1l2 : s1.ledger = s.ledger := by
      rw [hs1l]
      simp [freshRecords]
    obtain ⟨m, hm⟩ : ∃ m, s.phases.length = m + 1 :=
      ⟨s.phases.length - 1, by omega⟩
    rw [hm] at hstep
    have hsimple := generateAux_succ_simple cap obs ovr m s1 1 ph2
      (by rw [hs1p, hs1i]; exact hph2)
      (by intro c hc
          rw [hs1l2, hs1i]
          exact hadm2 c hc)
      (by intro q2 hq2b
          rw [hs1l2, hs1i]
          exact hq2 q2 hq2b)
    rw [hsimple] at hstep
    have hY := hcap ph2.generatorId ph2.generatorConfig obs
      (ovr.getD (pendingPoints s1.ledger)) 1
    obtain ⟨p, hp⟩ := List.length_eq_one.mp hY
    rw [genFromPhase_eq, hp] at hstep
    refine ⟨appendTrials s1 [p], p,
      { id := s1.ledger.length + 0, phaseIndex := s1.currentPhaseIndex,
        status := .Pending, points := [p] }, ?_, ?_, ?_, rfl, rfl, ?_⟩
    · unfold generate
      rw [hm]
      rw [hstep]
      rfl
    · rw [appendTrials_ledger, hs1l2]
      rfl
    · exact hs1i
    · rw [appendTrials_currentPhaseIndex]
      exact hs1i

/-- Claim C2: with `enforceQuota = false` and a bounded quota on the current
phase, a request overflowing the quota is served from the current phase only
up to the quota boundary; when the phase's observed requirement is met the
controller advances the phase inside the same `generate` call and serves the
remainder from the next phase, returning the current phase's candidates first
and never producing past the quota from the current phase. -/
theorem claim_C2_quota_rollover :
    ∀ (cap : GenCap) (s : StrategyState) (ph ph2 : PhaseDescriptor)
      (q n : Nat) (obs : ObservedData) (ovr : Option (List Point)),
      capFaithful cap →
      s.phases.get? s.currentPhaseIndex = some ph →
      ph.trialQuota = some q →
      ph.enforceQuota = false →
      q < countProduced s.ledger s.currentPhaseIndex + n →
      countProduced s.ledger s.currentPhaseIndex ≤ q →
      ph.minObservedBeforeAdvance ≤
        countObservedCompleted s.ledger s.currentPhaseIndex →
      (∀ c, ph.maxConcurrent = some c →
        countNonTerminal s.ledger s.currentPhaseIndex + n ≤ c) →
      s.phases.get? (s.currentPhaseIndex + 1) = some ph2 →
      (∀ c, ph2.maxConcurrent = some c →
        countNonTerminal s.ledger (s.currentPhaseIndex + 1) +
          (n - (q - countProduced s.ledger s.currentPhaseIndex)) ≤ c) →
      (∀ q2, ph2.trialQuota = some q2 →
        countProduced s.ledger (s.currentPhaseIndex + 1) +
          (n - (q - countProduced s.ledger s.currentPhaseIndex)) ≤ q2) →
      ∃ (s' : StrategyState) (pts1 pts2 : List Point),
        generate cap s n obs ovr = .ok (s', pts1 ++ pts2) ∧
        pts1.length = q - countProduced s.ledger s.currentPhaseIndex ∧
        pts2.length = n - (q - countProduced s.ledger s.currentPhaseIndex) ∧
        s'.currentPhaseIndex = s.currentPhaseIndex + 1 ∧
        countProduced s'.ledger s.currentPhaseIndex = q ∧
        countProduced s'.ledger (s.currentPhaseIndex + 1) =
          countProduced s.ledger (s.currentPhaseIndex + 1) +
            (n - (q - countProduced s.ledger s.currentPhaseIndex)) := by
  intro cap s ph ph2 q n obs ovr hcap hph hq henf hover hprodle hobs hadm
    hph2 hadm2 hq2
  obtain ⟨s1, hs1p, hs1i, hs1l, hstep⟩ :=
    generateAux_succ_rollover cap obs ovr s.phases.length s n ph q hcap
      hph hq hadm hover hobs
  obtain ⟨m, hm⟩ : ∃ m, s.phases.length = m + 1 :=
    ⟨s.phases.length - 1, by
      have := (List.get?_eq_some.mp hph).1
      omega⟩
  rw [hm] at hstep
  have hXlen := hcap ph.generatorId ph.generatorConfig obs
    (ovr.getD (pendingPoints s.ledger))
    (q - countProduced s.ledger s.currentPhaseIndex)
  have hne : s.currentPhaseIndex + 1 ≠ s.currentPhaseIndex := by omega
  have hprod1 : countProduced s1.ledger (s.currentPhaseIndex + 1) =
      countProduced s.ledger (s.currentPhaseIndex + 1) := by
    rw [hs1l, countProduced_append, countProduced_freshRecords,
      if_neg hne]
    omega
  have hnt1 : countNonTerminal s1.ledger (s.currentPhaseIndex + 1) =
      countNonTerminal s.ledger (s.currentPhaseIndex + 1) := by
    rw [hs1l, countNonTerminal_append, countNonTerminal_freshRecords,
      if_neg hne]
    omega
  have hsimple := generateAux_succ_simple cap obs ovr m s1
    (n - (q - countProduced s.ledger s.currentPhaseIndex)) ph2
    (by rw [hs1p, hs1i]; exact hph2)
    (by intro c hc
        rw [hs1i, hnt1]
        exact hadm2 c hc)
    (by intro q2 hq2b
        rw [hs1i, hprod1]
        exact hq2 q2 hq2b)
  rw [hsimple] at hstep
  simp only [Except.map, genFromPhase_eq] at hstep
  refine ⟨appendTrials s1 (cap.run ph2.generatorId ph2.generatorConfig obs
      (ovr.getD (pendingPoints s1.ledger))
      (n - (q - countProduced s.ledger s.currentPhaseIndex))),
    cap.run ph.generatorId ph.generatorConfig obs
      (ovr.getD (pendingPoints s.ledger))
      (q - countProduced s.ledger s.currentPhaseIndex),
    cap.run ph2.generatorId ph2.generatorConfig obs
      (ovr.getD (pendingPoints s1.ledger))
      (n - (q - countProduced s.ledger s.currentPhaseIndex)),
    ?_, hXlen, hcap _ _ _ _ _, ?_, ?_, ?_⟩
  · unfold generate
    rw [hm]
    exact hstep
  · rw [appendTrials_currentPhaseIndex]
    exact hs1i
  · rw [appendTrials_ledger, countProduced_append,
      countProduced_freshRecords, if_neg (by rw [hs1i]; omega), hs1l,
      countProduced_append, countProduced_freshRecords, if_pos rfl, hXlen]
    omega
  · rw [appendTrials_ledger, countProduced_append,
      countProduced_freshRecords, if_pos (by rw [hs1i]), hprod1,
      hcap _ _ _ _ _]

end GenStrategy

namespace MaxUtility

/-- Claim C10: for a generator run with at least `n` arms and a prediction
function returning one mean per observation feature, `max_utility_from_GP`
returns a GeneratorRun with exactly `n` arms, each taken from `gr.arms`,
weights all `1.0`, and the selected arms are the `n` arms of highest
predicted utility (the negation of the predicted objective mean at the arm's
parameters with `trial_type = "online"`): every selected index has utility at
least that of every unselected index. -/
theorem claim_C10_max_utility :
    ∀ (n : Nat) (m : Model) (experiment search_space : Nat)
      (gr : GeneratorRun),
      n ≤ gr.arms.length →
      (objectiveUtility m gr).length = gr.arms.length →
      (max_utility_from_GP n m experiment search_space gr).weights =
        List.replicate n 1 ∧
      (max_utility_from_GP n m experiment search_space gr).arms.length = n ∧
      (∀ a ∈ (max_utility_from_GP n m experiment search_space gr).arms,
        a ∈ gr.arms) ∧
      ∃ sel : List Nat, sel.Nodup ∧
        (∀ i ∈ sel, i < gr.arms.length) ∧
        (max_utility_from_GP n m experiment search_space gr).arms =
          sel.map (fun i => gr.arms.getD i default) ∧
        (∀ i ∈ sel, ∀ j, j < gr.arms.length → j ∉ sel →
          (objectiveUtility m gr).getD j 0 ≤
            (objectiveUtility m gr).getD i 0) := by
  intro n m experiment search_space gr hn hlen
  have harms : (max_utility_from_GP n m experiment search_space gr).arms =
      ((argsort (objectiveUtility m gr)).reverse.take n).map
        (fun i => gr.arms.getD i default) := rfl
  have hweights : (max_utility_from_GP n m experiment search_space gr).weights
      = List.replicate n 1 := rfl
  set u := objectiveUtility m gr with hu
  have hperm : List.Perm (argsort u) (List.range u.length) :=
    List.perm_insertionSort _ _
  have hsorted : List.Sorted (fun i j => u.getD i 0 ≤ u.getD j 0)
      (argsort u) := by
    haveI : IsTotal Nat (fun i j => u.getD i 0 ≤ u.getD j 0) :=
      ⟨fun a b => le_total _ _⟩
    haveI : IsTrans Nat (fun i j => u.getD i 0 ≤ u.getD j 0) :=
      ⟨fun a b c hab hbc => le_trans hab hbc⟩
    exact List.sorted_insertionSort _ _
  have hrevpair : ((argsort u).reverse).Pairwise
      (fun a b => u.getD b 0 ≤ u.getD a 0) := by
    rw [List.pairwise_reverse]
    exact hsorted
  have hlenrev : ((argsort u).reverse).length = u.length := by
    rw [List.length_reverse]
    exact hperm.length_eq.trans (List.length_range _)
  have hmemrev : ∀ i, i ∈ (argsort u).reverse ↔ i < u.length := by
    intro i
    rw [List.mem_reverse, hperm.mem_iff, List.mem_range]
  have hselmem : ∀ i ∈ (argsort u).reverse.take n, i < gr.arms.length := by
    intro i hi
    have := (hmemrev i).mp (List.mem_of_mem_take hi)
    rw [hlen] at this
    exact this
  have hnodup : ((argsort u).reverse.take n).Nodup := by
    have h1 : ((argsort u).reverse).Nodup := by
      rw [List.nodup_reverse]
      exact hperm.nodup_iff.mpr (List.nodup_range _)
    exact (List.take_sublist _ _).nodup h1
  refine ⟨hweights, ?_, ?_, (argsort u).reverse.take n, hnodup, hselmem,
    harms, ?_⟩
  · rw [harms, List.length_map, List.length_take, hlenrev, hlen]
    omega
  · intro a ha
    rw [harms] at ha
    obtain ⟨i, hi, hgd⟩ := List.mem_map.mp ha
    have hilt := hselmem i hi
    rw [← hgd, List.getD_eq_getElem _ _ hilt]
    exact List.getElem_mem _
  · intro i hi j hj hjnot
    have hjmem : j ∈ (argsort u).reverse := by
      rw [hmemrev, hlen]
      exact hj
    have hsplit := List.take_append_drop n ((argsort u).reverse)
    have hjdrop : j ∈ (argsort u).reverse.drop n := by
      rcases List.mem_append.mp (by rw [hsplit]; exact hjmem) with h | h
      · exact absurd h hjnot
      · exact h
    have hpair2 : ((argsort u).reverse.take n ++
        (argsort u).reverse.drop n).Pairwise
        (fun a b => u.getD b 0 ≤ u.getD a 0) := by
      rw [hsplit]
      exact hrevpair
    exact (List.pairwise_append.mp hpair2).2.2 i hi j hjdrop

end MaxUtility

namespace GenStrategy

/-- Witness for claim C1 at a concrete ledger: completing the only trial
holding point 5 removes 5 from the pending set. -/
theorem claim_C1_pendingPoints_witness :
    (5 : Point) ∉ pendingPoints
      (⟨[], 0, [⟨0, 0, .Completed, [5]⟩]⟩ : StrategyState).ledger :=
  claim_C1_pendingPoints.2
    ⟨[], 0, [⟨0, 0, .Pending, [5]⟩]⟩
    ⟨[], 0, [⟨0, 0, .Completed, [5]⟩]⟩
    0 .Completed 5 rfl (Or.inl rfl) (by decide)

/-- Witness for claim C3 at a concrete state whose quota and observation
requirements are met: `advanceIfEligible` moves the index from 0 to 1. -/
theorem claim_C3_advanceIfEligible_witness :
    (advanceIfEligible ⟨[⟨0, 0, some 1, 0, some 1, false⟩], 0,
      [⟨0, 0, .Completed, [3]⟩]⟩).1 =
      ⟨[⟨0, 0, some 1, 0, some 1, false⟩], 1, [⟨0, 0, .Completed, [3]⟩]⟩ :=
  (claim_C3_advanceIfEligible ⟨[⟨0, 0, some 1, 0, some 1, false⟩], 0,
    [⟨0, 0, .Completed, [3]⟩]⟩).2.1 (by decide)

/-- Witness for claim C8 at a concrete ledger: a transition out of the
terminal Completed status fails with `InvalidTransition`. -/
theorem claim_C8_reportStatus_witness :
    reportStatus (⟨[], 0, [⟨0, 0, .Completed, [4]⟩]⟩ : StrategyState) 0
      .Running = .error .InvalidTransition :=
  (claim_C8_reportStatus ⟨[], 0, [⟨0, 0, .Completed, [4]⟩]⟩ 0
    .Running).2.2.1 ⟨0, 0, .Completed, [4]⟩ rfl (by decide)

/-- Witness for claim C6 on a concrete one-phase strategy: the phase index is
monotone over a step and bounded by the number of phases. -/
theorem claim_C6_phase_monotone_witness :
    (applyOps ⟨[⟨0, 0, some 1, 0, some 1, false⟩], 0, []⟩ []).currentPhaseIndex
      ≤ (applyOps ⟨[⟨0, 0, some 1, 0, some 1, false⟩], 0, []⟩
        ([] ++ [.currentPhaseOp])).currentPhaseIndex ∧
    (applyOps ⟨[⟨0, 0, some 1, 0, some 1, false⟩], 0, []⟩
      []).currentPhaseIndex ≤ 1 ∧
    (applyOps ⟨[⟨0, 0, some 1, 0, some 1, false⟩], 0, []⟩ []).phases =
      [⟨0, 0, some 1, 0, some 1, false⟩] := by
  have h := claim_C6_phase_monotone [⟨0, 0, some 1, 0, some 1, false⟩]
    ⟨[⟨0, 0, some 1, 0, some 1, false⟩], 0, []⟩ rfl
  exact ⟨h.1 [] .currentPhaseOp, h.2.1 [], h.2.2 []⟩

/-- Witness for claim C7 on a concrete single-phase strategy with a
length-faithful generator: `generate(2, ...)` returns exactly 2 candidates
and appends exactly 2 Pending records holding them. -/
theorem claim_C7_generate_exact_n_witness :
    ([9, 9] : List Point).length = 2 ∧
    ∃ extra, (⟨[⟨0, 0, none, 0, none, false⟩], 0,
        [⟨0, 0, .Pending, [9]⟩, ⟨1, 0, .Pending, [9]⟩]⟩ :
          StrategyState).ledger = ([] : List TrialRecord) ++ extra ∧
      extra.length = 2 ∧
      extra.map TrialRecord.points = ([9, 9] : List Point).map
        (fun p => [p]) ∧
      ∀ r ∈ extra, r.status = .Pending ∧
        (⟨[⟨0, 0, none, 0, none, false⟩], 0, []⟩ :
          StrategyState).currentPhaseIndex ≤ r.phaseIndex ∧
        r.phaseIndex ≤ (⟨[⟨0, 0, none, 0, none, false⟩], 0,
          [⟨0, 0, .Pending, [9]⟩, ⟨1, 0, .Pending, [9]⟩]⟩ :
            StrategyState).currentPhaseIndex ∧
        r.phaseIndex < (⟨[⟨0, 0, none, 0, none, false⟩], 0, []⟩ :
          StrategyState).phases.length :=
  claim_C7_generate_exact_n ⟨fun _ _ _ _ k => List.replicate k 9⟩
    ⟨[⟨0, 0, none, 0, none, false⟩], 0, []⟩ 2 0 none
    ⟨[⟨0, 0, none, 0, none, false⟩], 0,
      [⟨0, 0, .Pending, [9]⟩, ⟨1, 0, .Pending, [9]⟩]⟩ [9, 9]
    (by intro gid cfg obs pend k; simp) (by decide)

/-- Witness for claim C4 at a concrete state: with `maxConcurrent = 2` and 2
non-terminal trials, `generate(1, ...)` fails with `MaxParallelismReached`
and the state is unchanged. -/
theorem claim_C4_max_parallelism_witness :
    generate ⟨fun _ _ _ _ k => List.replicate k 9⟩
      ⟨[⟨0, 0, some 5, 3, some 2, true⟩], 0,
        [⟨0, 0, .Pending, [1]⟩, ⟨1, 0, .Running, [2]⟩]⟩ 1 0 none =
      .error (.MaxParallelismReached 2 2) ∧
    applyOp ⟨[⟨0, 0, some 5, 3, some 2, true⟩], 0,
        [⟨0, 0, .Pending, [1]⟩, ⟨1, 0, .Running, [2]⟩]⟩
      (.genOp ⟨fun _ _ _ _ k => List.replicate k 9⟩ 1 0 none) =
      ⟨[⟨0, 0, some 5, 3, some 2, true⟩], 0,
        [⟨0, 0, .Pending, [1]⟩, ⟨1, 0, .Running, [2]⟩]⟩ :=
  claim_C4_max_parallelism ⟨fun _ _ _ _ k => List.replicate k 9⟩
    ⟨[⟨0, 0, some 5, 3, some 2, true⟩], 0,
      [⟨0, 0, .Pending, [1]⟩, ⟨1, 0, .Running, [2]⟩]⟩
    ⟨0, 0, some 5, 3, some 2, true⟩ 2 1 0 none rfl rfl (by decide) (by decide)

/-- Witness for claim C5 on the spec's own scenario (`trialQuota = 5`,
`minObservedBeforeAdvance = 3`, `enforceQuota = true`): with 5 produced and 2
observed `generate(1, ...)` fails with `DataRequiredError`; with a 3rd trial
Completed it succeeds and the new trial goes to the next phase. -/
theorem claim_C5_data_required_witness :
    (generate ⟨fun _ _ _ _ k => List.replicate k 9⟩
      ⟨[⟨0, 0, some 5, 3, some 9, true⟩, ⟨1, 0, none, 0, none, false⟩], 0,
        [⟨0, 0, .Completed, [1]⟩, ⟨1, 0, .Completed, [2]⟩,
         ⟨2, 0, .Pending, [3]⟩, ⟨3, 0, .Pending, [4]⟩,
         ⟨4, 0, .Pending, [5]⟩]⟩ 1 0 none = .error .DataRequiredError ∧
     applyOp ⟨[⟨0, 0, some 5, 3, some 9, true⟩, ⟨1, 0, none, 0, none, false⟩],
        0, [⟨0, 0, .Completed, [1]⟩, ⟨1, 0, .Completed, [2]⟩,
         ⟨2, 0, .Pending, [3]⟩, ⟨3, 0, .Pending, [4]⟩,
         ⟨4, 0, .Pending, [5]⟩]⟩
       (.genOp ⟨fun _ _ _ _ k => List.replicate k 9⟩ 1 0 none) =
       ⟨[⟨0, 0, some 5, 3, some 9, true⟩, ⟨1, 0, none, 0, none, false⟩], 0,
        [⟨0, 0, .Completed, [1]⟩, ⟨1, 0, .Completed, [2]⟩,
         ⟨2, 0, .Pending, [3]⟩, ⟨3, 0, .Pending, [4]⟩,
         ⟨4, 0, .Pending, [5]⟩]⟩) ∧
    (∃ (s' : StrategyState) (p : Point) (rec : TrialRecord),
      generate ⟨fun _ _ _ _ k => List.replicate k 9⟩
        ⟨[⟨0, 0, some 5, 3, some 9, true⟩, ⟨1, 0, none, 0, none, false⟩], 0,
          [⟨0, 0, .Completed, [1]⟩, ⟨1, 0, .Completed, [2]⟩,
           ⟨2, 0, .Completed, [3]⟩, ⟨3, 0, .Pending, [4]⟩,
           ⟨4, 0, .Pending, [5]⟩]⟩ 1 0 none = .ok (s', [p]) ∧
      s'.ledger = [⟨0, 0, .Completed, [1]⟩, ⟨1, 0, .Completed, [2]⟩,
           ⟨2, 0, .Completed, [3]⟩, ⟨3, 0, .Pending, [4]⟩,
           ⟨4, 0, .Pending, [5]⟩] ++ [rec] ∧
      rec.phaseIndex = 0 + 1 ∧
      rec.status = .Pending ∧
      rec.points = [p] ∧
      s'.currentPhaseIndex = 0 + 1) := by
  constructor
  · exact claim_C5_data_required.1 ⟨fun _ _ _ _ k => List.replicate k 9⟩
      ⟨[⟨0, 0, some 5, 3, some 9, true⟩, ⟨1, 0, none, 0, none, false⟩], 0,
        [⟨0, 0, .Completed, [1]⟩, ⟨1, 0, .Completed, [2]⟩,
         ⟨2, 0, .Pending, [3]⟩, ⟨3, 0, .Pending, [4]⟩,
         ⟨4, 0, .Pending, [5]⟩]⟩
      ⟨0, 0, some 5, 3, some 9, true⟩ 5 1 0 none rfl rfl rfl (by decide)
      (by decide) (by decide)
      (by intro c hc; cases hc; decide)
  · exact claim_C5_data_required.2 ⟨fun _ _ _ _ k => List.replicate k 9⟩
      ⟨[⟨0, 0, some 5, 3, some 9, true⟩, ⟨1, 0, none, 0, none, false⟩], 0,
        [⟨0, 0, .Completed, [1]⟩, ⟨1, 0, .Completed, [2]⟩,
         ⟨2, 0, .Completed, [3]⟩, ⟨3, 0, .Pending, [4]⟩,
         ⟨4, 0, .Pending, [5]⟩]⟩
      ⟨0, 0, some 5, 3, some 9, true⟩ ⟨1, 0, none, 0, none, false⟩ 5 0 none
      (by intro gid cfg obs pend k; simp) rfl rfl (by decide) (by decide)
      (by intro c hc; cases hc; decide) rfl
      (by intro c hc; exact Option.noConfusion hc)
      (by intro q2 hq2; exact Option.noConfusion hq2)

/-- Witness for claim C2 on a concrete two-phase strategy
(`trialQuota = 5`, 3 produced and observed, `enforceQuota = false`):
`generate(4, ...)` serves 2 candidates from phase 0 (reaching the quota
exactly) and 2 from phase 1 inside one call. -/
theorem claim_C2_quota_rollover_witness :
    ∃ (s' : StrategyState) (pts1 pts2 : List Point),
      generate ⟨fun _ _ _ _ k => List.replicate k 9⟩
        ⟨[⟨0, 0, some 5, 3, none, false⟩, ⟨1, 0, none, 0, none, false⟩], 0,
          [⟨0, 0, .Completed, [1]⟩, ⟨1, 0, .Completed, [2]⟩,
           ⟨2, 0, .Completed, [3]⟩]⟩ 4 0 none = .ok (s', pts1 ++ pts2) ∧
      pts1.length = 5 - countProduced
        [⟨0, 0, .Completed, [1]⟩, ⟨1, 0, .Completed, [2]⟩,
         ⟨2, 0, .Completed, [3]⟩] 0 ∧
      pts2.length = 4 - (5 - countProduced
        [⟨0, 0, .Completed, [1]⟩, ⟨1, 0, .Completed, [2]⟩,
         ⟨2, 0, .Completed, [3]⟩] 0) ∧
      s'.currentPhaseIndex = 0 + 1 ∧
      countProduced s'.ledger 0 = 5 ∧
      countProduced s'.ledger (0 + 1) =
        countProduced [⟨0, 0, .Completed, [1]⟩, ⟨1, 0, .Completed, [2]⟩,
          ⟨2, 0, .Completed, [3]⟩] (0 + 1) +
          (4 - (5 - countProduced [⟨0, 0, .Completed, [1]⟩,
            ⟨1, 0, .Completed, [2]⟩, ⟨2, 0, .Completed, [3]⟩] 0)) :=
  claim_C2_quota_rollover ⟨fun _ _ _ _ k => List.replicate k 9⟩
    ⟨[⟨0, 0, some 5, 3, none, false⟩, ⟨1, 0, none, 0, none, false⟩], 0,
      [⟨0, 0, .Completed, [1]⟩, ⟨1, 0, .Completed, [2]⟩,
       ⟨2, 0, .Completed, [3]⟩]⟩
    ⟨0, 0, some 5, 3, none, false⟩ ⟨1, 0, none, 0, none, false⟩ 5 4 0 none
    (by intro gid cfg obs pend k; simp) rfl rfl rfl (by decide) (by decide)
    (by decide)
    (by intro c hc; exact Option.noConfusion hc) rfl
    (by intro c hc; exact Option.noConfusion hc)
    (by intro q2 hq2; exact Option.noConfusion hq2)

end GenStrategy

namespace MaxUtility

set_option maxHeartbeats 2000000 in
/-- Witness for claim C10 on a concrete generator run of four arms with an
identity-like prediction: the two selected arms are those with the smallest
predicted objective, i.e. the highest utility. -/
theorem claim_C10_max_utility_witness :
    (max_utility_from_GP 2
      ⟨fun obsf => (fun st => if st = "objective" then
        obsf.map (fun o => (o.parameters : Int)) else [], 0)⟩ 0 0
      ⟨[⟨5⟩, ⟨1⟩, ⟨3⟩, ⟨2⟩], []⟩).weights = List.replicate 2 1 ∧
    (max_utility_from_GP 2
      ⟨fun obsf => (fun st => if st = "objective" then
        obsf.map (fun o => (o.parameters : Int)) else [], 0)⟩ 0 0
      ⟨[⟨5⟩, ⟨1⟩, ⟨3⟩, ⟨2⟩], []⟩).arms.length = 2 ∧
    (∀ a ∈ (max_utility_from_GP 2
      ⟨fun obsf => (fun st => if st = "objective" then
        obsf.map (fun o => (o.parameters : Int)) else [], 0)⟩ 0 0
      ⟨[⟨5⟩, ⟨1⟩, ⟨3⟩, ⟨2⟩], []⟩).arms,
      a ∈ (⟨[⟨5⟩, ⟨1⟩, ⟨3⟩, ⟨2⟩], []⟩ : GeneratorRun).arms) ∧
    ∃ sel : List Nat, sel.Nodup ∧
      (∀ i ∈ sel, i < (⟨[⟨5⟩, ⟨1⟩, ⟨3⟩, ⟨2⟩], []⟩ :
        GeneratorRun).arms.length) ∧
      (max_utility_from_GP 2
        ⟨fun obsf => (fun st => if st = "objective" then
          obsf.map (fun o => (o.parameters : Int)) else [], 0)⟩ 0 0
        ⟨[⟨5⟩, ⟨1⟩, ⟨3⟩, ⟨2⟩], []⟩).arms =
        sel.map (fun i => (⟨[⟨5⟩, ⟨1⟩, ⟨3⟩, ⟨2⟩], []⟩ :
          GeneratorRun).arms.getD i default) ∧
      (∀ i ∈ sel, ∀ j, j < (⟨[⟨5⟩, ⟨1⟩, ⟨3⟩, ⟨2⟩], []⟩ :
        GeneratorRun).arms.length → j ∉ sel →
        (objectiveUtility ⟨fun obsf => (fun st => if st = "objective" then
          obsf.map (fun o => (o.parameters : Int)) else [], 0)⟩
          ⟨[⟨5⟩, ⟨1⟩, ⟨3⟩, ⟨2⟩], []⟩).getD j 0 ≤
        (objectiveUtility ⟨fun obsf => (fun st => if st = "objective" then
          obsf.map (fun o => (o.parameters : Int)) else [], 0)⟩
          ⟨[⟨5⟩, ⟨1⟩, ⟨3⟩, ⟨2⟩], []⟩).getD i 0) :=
  claim_C10_max_utility 2
    ⟨fun obsf => (fun st => if st = "objective" then
      obsf.map (fun o => (o.parameters : Int)) else [], 0)⟩ 0 0
    ⟨[⟨5⟩, ⟨1⟩, ⟨3⟩, ⟨2⟩], []⟩ (by decide) (by decide)

end MaxUtility
